import Mathlib

/-!
The `Json` value box of `pgtype` (json.go).

A shallow embedding of `json.go` and the properties of its operations:
`Set`, `Get`, `AssignTo`, `DecodeText`, `DecodeBinary`, `EncodeText`,
`EncodeBinary`, `Scan` and `Value`.

Conventions of the embedding.

* A method with a pointer receiver that writes `*dst` takes the box before the
  call and returns the box after it, next to its Go results.
* A Go `[]byte` is `GoBytes`: the nil slice, or a non-nil slice with its
  elements (a non-nil slice may have length zero).
* A Go `string` is the list of its bytes.
* `encoding/json` is a parameter (`Lib`); the calls an operation makes to
  it are returned as a list, in call order.
* Variables a caller passes by address to `AssignTo` live in a `Store`.
* For the properties that speak of aliasing, the box and the byte arrays live
  in a `Mem`; the operations on it end in `M` and agree with those by value.
-/

namespace Pgtype

/-! ## Go values -/

/-- One byte. -/
abbrev Byte := Fin 256

/-- A Go `string`: an immutable sequence of bytes. -/
abbrev GoString := List Byte

/-- A Go `[]byte`: `nil` is the nil slice, `slice bs` a non-nil slice whose
elements are `bs` (`slice []` is the non-nil slice of length zero). -/
inductive GoBytes where
  | nil
  | slice (bs : List Byte)
  deriving DecidableEq, Repr

namespace GoBytes

/-- The elements of a slice; the nil slice has none. -/
def elems : GoBytes → List Byte
  | nil => []
  | slice bs => bs

/-- Go `len(b)`. -/
def len (b : GoBytes) : Nat := b.elems.length

/-- Go `append(buf, s...)`. Appending no element returns `buf` itself, so a nil
`buf` stays nil; in every other case the result is a non-nil slice holding the
elements of `buf` followed by those of `s`. -/
def append (buf s : GoBytes) : GoBytes :=
  match buf, s.elems with
  | nil, [] => nil
  | nil, x :: xs => slice (x :: xs)
  | slice bs, xs => slice (bs ++ xs)

/-- Go `b := make([]byte, len(s)); copy(b, s)`: a fresh non-nil slice with the
elements of `s`. -/
def makeCopy (s : GoBytes) : GoBytes := slice s.elems

/-- Go `[]byte(s)` for a string `s`: a non-nil slice with the bytes of `s`. -/
def ofString (s : GoString) : GoBytes := slice s

/-- Go `string(b)`: the bytes of `b` as a string (the nil slice gives `""`). -/
def toGoString (b : GoBytes) : GoString := b.elems

end GoBytes

/-! ## The box -/

/-- Modelled from the spec: the type `Status` is declared outside json.go;
the spec gives it the three values `Undefined`, `Null` and `Present`, and
`Undefined` is the status of the zero-valued box. -/
inductive Status where
  | Undefined
  | Null
  | Present
  deriving DecidableEq, Repr

/-- Errors the operations return. `E` is the error type of `encoding/json`. -/
inductive Error (E : Type) where
  /-- Modelled from the spec: `errUndefined`, declared outside json.go; the
  spec calls it the undefined-value error. -/
  | errUndefined
  /-- An error returned by `json.Marshal` or `json.Unmarshal`, passed on. -/
  | json (e : E)
  /-- The result of `fmt.Errorf("cannot scan %T", src)`, with the type name. -/
  | cannotScan (typeName : String)
  deriving DecidableEq, Repr

/-- The struct `Json`. -/
structure Json where
  Bytes : GoBytes
  Status : Status
  deriving DecidableEq, Repr

/-- The zero value of `Json`. -/
def Json.zero : Json := { Bytes := GoBytes.nil, Status := Status.Undefined }

/-- Modelled from the spec: the type `ConnInfo` is declared outside json.go;
the operations only pass it through. -/
structure ConnInfo where
  id : Nat
  deriving DecidableEq, Repr

/-! ## DecodeText, DecodeBinary, EncodeText, EncodeBinary -/

/-- The method `DecodeText`, json.go lines 93-101: the box after the call and
the returned error. -/
def DecodeText {E : Type} (_dst : Json) (_ci : Option ConnInfo) (src : GoBytes) :
    Json × Option (Error E) :=
  if src = GoBytes.nil then
    ({ Bytes := GoBytes.nil, Status := Status.Null }, none)
  else
    ({ Bytes := src, Status := Status.Present }, none)

/-- The method `DecodeBinary`, json.go lines 103-105. -/
def DecodeBinary {E : Type} (dst : Json) (ci : Option ConnInfo) (src : GoBytes) :
    Json × Option (Error E) :=
  DecodeText dst ci src

/-- The method `EncodeText`, json.go lines 107-116: the returned bytes and the
returned error. -/
def EncodeText {E : Type} (src : Json) (_ci : Option ConnInfo) (buf : GoBytes) :
    GoBytes × Option (Error E) :=
  match src.Status with
  | Status.Null => (GoBytes.nil, none)
  | Status.Undefined => (GoBytes.nil, some Error.errUndefined)
  | Status.Present => (GoBytes.append buf src.Bytes, none)

/-- The method `EncodeBinary`, json.go lines 118-120. -/
def EncodeBinary {E : Type} (src : Json) (ci : Option ConnInfo) (buf : GoBytes) :
    GoBytes × Option (Error E) :=
  EncodeText src ci buf

/-! ## Dynamic values and `encoding/json` -/

/-- A value passed as `interface{}` to `Set` and `Scan`, and the
`driver.Value` that `Value` returns, by dynamic type. `V` is the type of the
values of every other dynamic type. -/
inductive Src (V : Type) where
  /-- The nil interface value. -/
  | nil
  /-- A `string`. -/
  | str (s : GoString)
  /-- A `*string`: `none` is the nil pointer, `some s` points to the string `s`. -/
  | strPtr (p : Option GoString)
  /-- A `[]byte`. -/
  | bytes (b : GoBytes)
  /-- A value of any other dynamic type. -/
  | other (v : V)
  deriving DecidableEq, Repr

/-- The `interface{}` value `Get` returns. `I` is the type of the non-nil
values `json.Unmarshal` stores into an `interface{}`. -/
inductive Iface (I : Type) where
  /-- The nil interface value. -/
  | nil
  /-- A `Status`. -/
  | status (s : Status)
  /-- The receiver `dst`, a `*Json`, with the box it points to. -/
  | jsonPtr (box : Json)
  /-- A value decoded by `json.Unmarshal`. -/
  | dyn (i : I)
  deriving DecidableEq, Repr

/-- A pointer to a variable of a `Store`: `none` is nil, `some a` the variable
at index `a`. -/
abbrev Ptr := Option Nat

/-- The caller's variables that `AssignTo` can write through its argument. -/
structure Store where
  /-- The `string` variables. -/
  strings : List GoString
  /-- The `*string` variables. -/
  stringPtrs : List Ptr
  /-- The `[]byte` variables. -/
  byteSlices : List GoBytes
  deriving DecidableEq, Repr

namespace Store

/-- Go `*v = s` for `v` a `*string`; `none` is the run-time fault of a nil
dereference (and the answer for an address that is not in the store, which no
Go pointer holds). -/
def writeString (st : Store) (v : Ptr) (s : GoString) : Option Store :=
  match v with
  | none => none
  | some a =>
    if a < st.strings.length then some { st with strings := st.strings.set a s } else none

/-- Go `*v = p` for `v` a `**string`. -/
def writeStringPtr (st : Store) (v : Ptr) (p : Ptr) : Option Store :=
  match v with
  | none => none
  | some a =>
    if a < st.stringPtrs.length then
      some { st with stringPtrs := st.stringPtrs.set a p }
    else none

/-- Go `*v` for `v` a `**string`. -/
def readStringPtr (st : Store) (v : Ptr) : Option Ptr :=
  match v with
  | none => none
  | some a => st.stringPtrs[a]?

/-- Go `*v = b` for `v` a `*[]byte`. -/
def writeBytes (st : Store) (v : Ptr) (b : GoBytes) : Option Store :=
  match v with
  | none => none
  | some a =>
    if a < st.byteSlices.length then
      some { st with byteSlices := st.byteSlices.set a b }
    else none

/-- Go `new(string)`: a fresh variable holding `""`, and a pointer to it. -/
def newString (st : Store) : Ptr × Store :=
  (some st.strings.length, { st with strings := st.strings ++ [[]] })

end Store

/-- The destination passed as `interface{}` to `AssignTo`, by dynamic type.
`D` is the type of the destinations of every other dynamic type. -/
inductive Dest (D : Type) where
  /-- A `*string`. -/
  | pString (v : Ptr)
  /-- A `**string`. -/
  | ppString (v : Ptr)
  /-- A `*[]byte`. -/
  | pBytes (v : Ptr)
  /-- A destination of any other dynamic type. -/
  | other (d : D)
  deriving DecidableEq, Repr

/-- The library functions json.go calls: `encoding/json` and the `%T` verb of
`fmt`. `V`: values of other dynamic types, `I`: decoded dynamic values, `D`:
destinations of other dynamic types, `E`: the errors of `encoding/json`. -/
structure Lib (V I D E : Type) where
  /-- Go `json.Marshal(v)`: the bytes and the error. -/
  Marshal : V → GoBytes × Option E
  /-- Go `json.Unmarshal(data, &i)` for `var i interface{}`: the value of `i`
  after the call (`none` is the nil interface) and the error. -/
  UnmarshalIface : GoBytes → Option I × Option E
  /-- Go `json.Unmarshal(data, dst)`: the store after the call and the error. -/
  Unmarshal : GoBytes → D → Store → Store × Option E
  /-- The text `%T` prints for a value of another dynamic type. -/
  typeName : V → String

/-- The four bytes of the ASCII text `null`. -/
def nullLiteral : GoString := [110, 117, 108, 108]

/-! ## Set, Get, AssignTo, Scan, Value -/

/-- What a call of `Set` leaves behind and returns. -/
structure SetResult (V E : Type) where
  /-- The box after the call. -/
  box : Json
  /-- The returned error. -/
  err : Option (Error E)
  /-- The arguments of the calls of `json.Marshal`, in call order. -/
  marshalCalls : List V

/-- The method `Set`, json.go lines 14-44. -/
def Set {V I D E : Type} (lib : Lib V I D E) (dst : Json) (src : Src V) : SetResult V E :=
  match src with
  | Src.nil => ⟨{ Bytes := GoBytes.nil, Status := Status.Null }, none, []⟩
  | Src.str value => ⟨{ Bytes := GoBytes.ofString value, Status := Status.Present }, none, []⟩
  | Src.strPtr value =>
    match value with
    | none => ⟨{ Bytes := GoBytes.nil, Status := Status.Null }, none, []⟩
    | some s => ⟨{ Bytes := GoBytes.ofString s, Status := Status.Present }, none, []⟩
  | Src.bytes value =>
    if value = GoBytes.nil then
      ⟨{ Bytes := GoBytes.nil, Status := Status.Null }, none, []⟩
    else
      ⟨{ Bytes := value, Status := Status.Present }, none, []⟩
  | Src.other value =>
    match lib.Marshal value with
    | (_, some err) => ⟨dst, some (Error.json err), [value]⟩
    | (buf, none) => ⟨{ Bytes := buf, Status := Status.Present }, none, [value]⟩

/-- The method `Get`, json.go lines 46-60. -/
def Get {V I D E : Type} (lib : Lib V I D E) (dst : Json) : Iface I :=
  match dst.Status with
  | Status.Present =>
    match lib.UnmarshalIface dst.Bytes with
    | (_, some _) => Iface.jsonPtr dst
    | (some i, none) => Iface.dyn i
    | (none, none) => Iface.nil
  | Status.Null => Iface.nil
  | Status.Undefined => Iface.status dst.Status

/-- What a call of `AssignTo` leaves behind and returns. -/
structure AssignResult (D E : Type) where
  /-- The caller's variables after the call. -/
  store : Store
  /-- The returned error. -/
  err : Option (Error E)
  /-- The arguments of the calls of `json.Unmarshal`, in call order. -/
  unmarshalCalls : List (GoBytes × D)

/-- The method `AssignTo`, json.go lines 62-91; `none` is a run-time fault
(a nil dereference). -/
def AssignTo {V I D E : Type} (lib : Lib V I D E) (src : Json) (dst : Dest D) (st : Store) :
    Option (AssignResult D E) :=
  match dst with
  | Dest.pString v =>
    if src.Status ≠ Status.Present then
      -- v = nil: the assignment changes the local variable v only
      some ⟨st, none, []⟩
    else
      match st.writeString v (GoBytes.toGoString src.Bytes) with
      | none => none
      | some st1 => some ⟨st1, none, []⟩
  | Dest.ppString v =>
    match st.newString with
    | (p, st1) =>
      match st1.writeStringPtr v p with
      | none => none
      | some st2 =>
        match st2.readStringPtr v with
        | none => none
        | some q => AssignTo lib src (Dest.pString q) st2
  | Dest.pBytes v =>
    if src.Status ≠ Status.Present then
      match st.writeBytes v GoBytes.nil with
      | none => none
      | some st1 => some ⟨st1, none, []⟩
    else
      match st.writeBytes v (GoBytes.makeCopy src.Bytes) with
      | none => none
      | some st1 => some ⟨st1, none, []⟩
  | Dest.other d =>
    let data :=
      if src.Bytes = GoBytes.nil ∨ src.Status ≠ Status.Present then
        GoBytes.ofString nullLiteral
      else src.Bytes
    match lib.Unmarshal data d st with
    | (st1, err) => some ⟨st1, err.map Error.json, [(data, d)]⟩
termination_by (match dst with | Dest.ppString _ => 1 | _ => 0)

/-- The method `Scan`, json.go lines 123-139: the box after the call and the
returned error. -/
def Scan {V I D E : Type} (lib : Lib V I D E) (dst : Json) (src : Src V) :
    Json × Option (Error E) :=
  match src with
  | Src.nil => ({ Bytes := GoBytes.nil, Status := Status.Null }, none)
  | Src.str s => DecodeText dst none (GoBytes.ofString s)
  | Src.bytes b => DecodeText dst none (GoBytes.makeCopy b)
  | Src.strPtr _ => (dst, some (Error.cannotScan "*string"))
  | Src.other v => (dst, some (Error.cannotScan (lib.typeName v)))

/-- The method `Value`, json.go lines 142-151: the returned `driver.Value`
and the returned error. -/
def Value {V E : Type} (src : Json) : Src V × Option (Error E) :=
  match src.Status with
  | Status.Present => (Src.str (GoBytes.toGoString src.Bytes), none)
  | Status.Null => (Src.nil, none)
  | Status.Undefined => (Src.nil, some Error.errUndefined)

/-! ## Example values -/

/-- A box with status `Null` that still carries the byte `x` in `Bytes`. -/
def staleNullBox : Json := { Bytes := GoBytes.slice [120], Status := Status.Null }

/-- A box with status `Present` whose `Bytes` is the non-nil slice of length zero. -/
def emptyPresentBox : Json := { Bytes := GoBytes.slice [], Status := Status.Present }

/-- The box `Json{Bytes: []byte("{}"), Status: Present}` of the tests. -/
def bracesBox : Json := { Bytes := GoBytes.slice [123, 125], Status := Status.Present }

/-- The `Null` box `Json{Status: Null}`. -/
def nullBox : Json := { Bytes := GoBytes.nil, Status := Status.Null }

/-- A library whose `encoding/json` fails on every call, with error `()`. -/
def failingLib : Lib Unit Unit Unit Unit where
  Marshal := fun _ => (GoBytes.nil, some ())
  UnmarshalIface := fun _ => (none, some ())
  Unmarshal := fun _ _ st => (st, some ())
  typeName := fun _ => "struct {}"

/-- The bytes of the text `old`. -/
def oldText : GoString := [111, 108, 100]

/-- A caller with one `string` variable holding `old`, one `*string` variable
holding nil, and one `[]byte` variable holding the byte 7. -/
def callerStore : Store :=
  { strings := [oldText], stringPtrs := [none], byteSlices := [GoBytes.slice [7]] }

/-! ## The box and its buffers in memory

The definitions above take the box and the byte slices by value. The ones
below place them in memory, where a `[]byte` is a window of a byte array that
other slices can share, and the fields of a box are variables a pointer can
refer to. They are used for the properties that speak of aliasing. -/

/-- A `[]byte` as Go holds it: nil, or the window of `len` bytes at offset
`off` of the byte array `arr`, which may grow in place up to `cap` bytes. -/
inductive SliceHdr where
  | nil
  | window (arr off len cap : Nat)
  deriving DecidableEq, Repr

/-- Two slices share a byte array. -/
def SliceHdr.SharesArray : SliceHdr → SliceHdr → Prop
  | SliceHdr.window a _ _ _, SliceHdr.window b _ _ _ => a = b
  | _, _ => False

/-- Memory: byte arrays, and the variables that hold strings, `*string`s,
`[]byte`s and statuses, each kind addressed by index. -/
structure Mem where
  /-- The byte arrays. -/
  arrays : List (List Byte)
  /-- The `string` variables. -/
  strings : List GoString
  /-- The `*string` variables. -/
  stringPtrs : List Ptr
  /-- The `[]byte` variables, the field `Bytes` of a box among them. -/
  slices : List SliceHdr
  /-- The `Status` variables, the field `Status` of a box among them. -/
  statuses : List Status
  deriving DecidableEq, Repr

/-- A `*Json`: the addresses of the two fields of the box. -/
structure JsonRef where
  /-- The address of the field `Bytes`, a `[]byte` variable. -/
  bytesAt : Nat
  /-- The address of the field `Status`, a `Status` variable. -/
  statusAt : Nat
  deriving DecidableEq, Repr

/-- Writing the bytes `xs` into the array `a` from position `pos` on. -/
def writeAt (a : List Byte) (pos : Nat) (xs : List Byte) : List Byte :=
  a.take pos ++ xs ++ a.drop (pos + xs.length)

namespace Mem

/-- A slice of this memory is nil or lies within an existing array: the
invariant of every `[]byte` value in Go. -/
def ValidHdr (m : Mem) : SliceHdr → Prop
  | SliceHdr.nil => True
  | SliceHdr.window arr off len cap =>
    arr < m.arrays.length ∧ len ≤ cap ∧ off + cap ≤ (m.arrays.getD arr []).length

/-- The value of a slice: nil, or the bytes of its window. -/
def elemsOf (m : Mem) : SliceHdr → GoBytes
  | SliceHdr.nil => GoBytes.nil
  | SliceHdr.window arr off len _ =>
    GoBytes.slice (((m.arrays.getD arr []).drop off).take len)

/-- The box a `*Json` points to, by value; `none` when the pointer refers to
no variables of this memory. -/
def load (m : Mem) (p : JsonRef) : Option Json :=
  match m.slices[p.bytesAt]?, m.statuses[p.statusAt]? with
  | some h, some s => some { Bytes := m.elemsOf h, Status := s }
  | _, _ => none

/-- Go `*dst = Json{Bytes: h, Status: s}`. -/
def storeBox (m : Mem) (dst : JsonRef) (h : SliceHdr) (s : Status) : Option Mem :=
  if dst.bytesAt < m.slices.length ∧ dst.statusAt < m.statuses.length then
    some { m with slices := m.slices.set dst.bytesAt h,
                  statuses := m.statuses.set dst.statusAt s }
  else none

/-- Go `s[i] = x`; `none` is the run-time fault of an index out of range. -/
def setByte (m : Mem) (s : SliceHdr) (i : Nat) (x : Byte) : Option Mem :=
  match s with
  | SliceHdr.nil => none
  | SliceHdr.window arr off len _ =>
    if i < len then
      some { m with arrays := m.arrays.set arr ((m.arrays.getD arr []).set (off + i) x) }
    else none

/-- Go `append(buf, xs...)`. A nil `buf` with no `xs` stays nil. When the
elements fit the capacity of `buf` they are written into its array, after its
window, and the window grows; otherwise a new array receives the elements of
`buf` followed by `xs`. The new array is given the capacity needed; Go may
give it more. -/
def appendBytes (m : Mem) (buf : SliceHdr) (xs : List Byte) : SliceHdr × Mem :=
  match buf with
  | SliceHdr.nil =>
    if xs = [] then (SliceHdr.nil, m)
    else
      (SliceHdr.window m.arrays.length 0 xs.length xs.length,
        { m with arrays := m.arrays ++ [xs] })
  | SliceHdr.window arr off len cap =>
    if len + xs.length ≤ cap then
      (SliceHdr.window arr off (len + xs.length) cap,
        { m with arrays := m.arrays.set arr (writeAt (m.arrays.getD arr []) (off + len) xs) })
    else
      (SliceHdr.window m.arrays.length 0 (len + xs.length) (len + xs.length),
        { m with arrays :=
            m.arrays ++ [(m.elemsOf (SliceHdr.window arr off len cap)).elems ++ xs] })

/-- Go `b := make([]byte, len(s)); copy(b, s)`: a new array with the bytes of
`s`, and the slice of all of it. -/
def makeCopy (m : Mem) (s : SliceHdr) : SliceHdr × Mem :=
  (SliceHdr.window m.arrays.length 0 (m.elemsOf s).len (m.elemsOf s).len,
    { m with arrays := m.arrays ++ [(m.elemsOf s).elems] })

/-- Go `*v = s` for `v` a `*string`. -/
def writeString (m : Mem) (v : Ptr) (s : GoString) : Option Mem :=
  match v with
  | none => none
  | some a =>
    if a < m.strings.length then some { m with strings := m.strings.set a s } else none

/-- Go `*v = p` for `v` a `**string`. -/
def writeStringPtr (m : Mem) (v : Ptr) (p : Ptr) : Option Mem :=
  match v with
  | none => none
  | some a =>
    if a < m.stringPtrs.length then
      some { m with stringPtrs := m.stringPtrs.set a p }
    else none

/-- Go `*v` for `v` a `**string`. -/
def readStringPtr (m : Mem) (v : Ptr) : Option Ptr :=
  match v with
  | none => none
  | some a => m.stringPtrs[a]?

/-- Go `*v = h` for `v` a `*[]byte`. -/
def writeSlice (m : Mem) (v : Ptr) (h : SliceHdr) : Option Mem :=
  match v with
  | none => none
  | some a =>
    if a < m.slices.length then some { m with slices := m.slices.set a h } else none

/-- Go `new(string)`. -/
def newString (m : Mem) : Ptr × Mem :=
  (some m.strings.length, { m with strings := m.strings ++ [[]] })

end Mem

/-- The method `DecodeText`, json.go lines 93-101, on a box in memory: the
memory after the call and the returned error; `none` when `dst` refers to no
variables of the memory. -/
def DecodeTextM {E : Type} (m : Mem) (dst : JsonRef) (_ci : Option ConnInfo)
    (src : SliceHdr) : Option (Mem × Option (Error E)) :=
  if src = SliceHdr.nil then
    (m.storeBox dst SliceHdr.nil Status.Null).map (fun m1 => (m1, none))
  else
    (m.storeBox dst src Status.Present).map (fun m1 => (m1, none))

/-- The method `EncodeText`, json.go lines 107-116, on a box in memory: the
returned slice, the returned error and the memory after the call. -/
def EncodeTextM {E : Type} (m : Mem) (src : JsonRef) (_ci : Option ConnInfo)
    (buf : SliceHdr) : Option ((SliceHdr × Option (Error E)) × Mem) :=
  match m.slices[src.bytesAt]?, m.statuses[src.statusAt]? with
  | some _, some Status.Null => some ((SliceHdr.nil, none), m)
  | some _, some Status.Undefined => some ((SliceHdr.nil, some Error.errUndefined), m)
  | some h, some Status.Present =>
    match m.appendBytes buf (m.elemsOf h).elems with
    | (r, m1) => some ((r, none), m1)
  | _, _ => none

/-- The method `EncodeBinary`, json.go lines 118-120, on a box in memory. -/
def EncodeBinaryM {E : Type} (m : Mem) (src : JsonRef) (ci : Option ConnInfo)
    (buf : SliceHdr) : Option ((SliceHdr × Option (Error E)) × Mem) :=
  EncodeTextM m src ci buf

/-- The method `Get`, json.go lines 46-60, on a box in memory: it reads the
two fields and writes a local variable only. -/
def GetM {V I D E : Type} (lib : Lib V I D E) (m : Mem) (dst : JsonRef) :
    Option (Iface I × Mem) :=
  (m.load dst).map (fun b => (Get lib b, m))

/-- The method `Value`, json.go lines 142-151, on a box in memory. -/
def ValueM {V E : Type} (m : Mem) (src : JsonRef) :
    Option ((Src V × Option (Error E)) × Mem) :=
  (m.load src).map (fun b => (Value b, m))

/-- The method `AssignTo`, json.go lines 62-91, on a box in memory, with
`unmarshal data d m` for `json.Unmarshal(data, d)` run on the memory `m`: the
memory after the call and the returned error; `none` is a run-time fault. -/
def AssignToM {D E : Type} (unmarshal : GoBytes → D → Mem → Mem × Option E) (m : Mem)
    (src : JsonRef) (dst : Dest D) : Option (Mem × Option (Error E)) :=
  match dst with
  | Dest.pString v =>
    match m.slices[src.bytesAt]?, m.statuses[src.statusAt]? with
    | some h, some s =>
      if s ≠ Status.Present then
        some (m, none)
      else
        (m.writeString v (GoBytes.toGoString (m.elemsOf h))).map (fun m1 => (m1, none))
    | _, _ => none
  | Dest.ppString v =>
    match m.newString with
    | (p, m1) =>
      match m1.writeStringPtr v p with
      | none => none
      | some m2 =>
        match m2.readStringPtr v with
        | none => none
        | some q => AssignToM unmarshal m2 src (Dest.pString q)
  | Dest.pBytes v =>
    match m.slices[src.bytesAt]?, m.statuses[src.statusAt]? with
    | some h, some s =>
      if s ≠ Status.Present then
        (m.writeSlice v SliceHdr.nil).map (fun m1 => (m1, none))
      else
        match m.makeCopy h with
        | (buf, m1) => (m1.writeSlice v buf).map (fun m2 => (m2, none))
    | _, _ => none
  | Dest.other d =>
    match m.slices[src.bytesAt]?, m.statuses[src.statusAt]? with
    | some h, some s =>
      let data :=
        if h = SliceHdr.nil ∨ s ≠ Status.Present then GoBytes.ofString nullLiteral
        else m.elemsOf h
      match unmarshal data d m with
      | (m1, err) => some (m1, err.map Error.json)
    | _, _ => none
termination_by (match dst with | Dest.ppString _ => 1 | _ => 0)

instance SliceHdr.decSharesArray (a b : SliceHdr) : Decidable (a.SharesArray b) := by
  cases a <;> cases b <;> unfold SliceHdr.SharesArray <;> infer_instance

instance Mem.decValidHdr (m : Mem) (h : SliceHdr) : Decidable (m.ValidHdr h) := by
  cases h <;> unfold Mem.ValidHdr <;> infer_instance

/-- The box whose two fields are the first slice variable and the first status
variable of a memory. -/
def firstBox : JsonRef := { bytesAt := 0, statusAt := 0 }

/-- A memory with a zero-valued box and one byte array holding `{}`, the
buffer of a caller. -/
def wireMem : Mem :=
  { arrays := [[123, 125]], strings := [], stringPtrs := [],
    slices := [SliceHdr.nil], statuses := [Status.Undefined] }

/-- The caller's buffer in `wireMem`: the slice of the whole array. -/
def wireBuf : SliceHdr := SliceHdr.window 0 0 2 2

/-- A memory with a `Present` box whose raw is the first two bytes, `ab`, of
an array of four bytes. -/
def overlapMem : Mem :=
  { arrays := [[97, 98, 0, 0]], strings := [], stringPtrs := [],
    slices := [SliceHdr.window 0 0 2 4], statuses := [Status.Present] }

/-- An output buffer in `overlapMem` that shares the array of the box: the
slice of length zero at offset 1, with capacity 3. -/
def overlapBuf : SliceHdr := SliceHdr.window 0 1 0 3

/-- A memory with a `Null` box that still carries the byte `x` as raw. -/
def staleMem : Mem :=
  { arrays := [[120]], strings := [], stringPtrs := [],
    slices := [SliceHdr.window 0 0 1 1], statuses := [Status.Null] }

/-- The variables of a memory by value, as the operations by value take them:
each `[]byte` variable with the value of its slice. -/
def Mem.toStore (m : Mem) : Store :=
  { strings := m.strings, stringPtrs := m.stringPtrs,
    byteSlices := m.slices.map m.elemsOf }

/-! ## Notions used to state the properties -/

/-- The `interface{}` value left in `var i interface{}` by `json.Unmarshal`:
nil, or the decoded value. -/
def Iface.ofOption {I : Type} : Option I → Iface I
  | none => Iface.nil
  | some i => Iface.dyn i

/-- The invariant of the data model: raw has length zero (nil or empty) unless
the status is `Present`. -/
def Json.RawOnlyWhenPresent (b : Json) : Prop :=
  b.Status ≠ Status.Present → b.Bytes.len = 0

/-- One call of an operation that writes the box, with its arguments. -/
inductive WriteCall (V : Type) where
  | set (src : Src V)
  | decodeText (ci : Option ConnInfo) (src : GoBytes)
  | decodeBinary (ci : Option ConnInfo) (src : GoBytes)
  | scan (src : Src V)

/-- The box after one call, whether the call returned an error or not. -/
def WriteCall.run {V I D E : Type} (lib : Lib V I D E) (b : Json) : WriteCall V → Json
  | WriteCall.set src => (Set lib b src).box
  | WriteCall.decodeText ci src => (@DecodeText E b ci src).1
  | WriteCall.decodeBinary ci src => (@DecodeBinary E b ci src).1
  | WriteCall.scan src => (Scan lib b src).1

/-- The box after a sequence of calls, made in order on the box `b`. -/
def runCalls {V I D E : Type} (lib : Lib V I D E) (b : Json) (calls : List (WriteCall V)) :
    Json :=
  calls.foldl (WriteCall.run lib) b

/-- The bytes of the text `{}`. -/
def bracesText : GoString := [123, 125]

/-- The text `s` between double quotes: what `json.Marshal` returns for a
string `s` without characters that need escaping. -/
def quoted (s : GoString) : GoString := 34 :: s ++ [34]

/-- The dynamic values of `sampleLib`. -/
inductive SampleValue where
  /-- A Go `string`. -/
  | text (s : GoString)
  /-- The empty `map[string]interface{}`. -/
  | emptyMap
  deriving DecidableEq, Repr

/-- A library that does what `encoding/json` does on three inputs: marshalling
the empty map gives `{}`, unmarshalling `{}` gives the empty map, and
unmarshalling the quoted text `"{}"` gives the string `{}`. Every other input
of `Unmarshal` is refused. -/
def sampleLib : Lib Unit SampleValue Unit Unit where
  Marshal := fun _ => (GoBytes.slice bracesText, none)
  UnmarshalIface := fun data =>
    if data.elems = bracesText then (some SampleValue.emptyMap, none)
    else if data.elems = quoted bracesText then (some (SampleValue.text bracesText), none)
    else (none, some ())
  Unmarshal := fun _ _ st => (st, some ())
  typeName := fun _ => "map[string]interface {}"

/-! ## Facts about slices -/

theorem GoBytes.elems_append (buf s : GoBytes) :
    (GoBytes.append buf s).elems = buf.elems ++ s.elems := by
  cases buf <;> cases s <;> simp [GoBytes.append, GoBytes.elems]
  all_goals rename_i bs
  all_goals cases bs <;> simp [GoBytes.elems]

theorem GoBytes.append_eq_nil_iff (buf s : GoBytes) :
    GoBytes.append buf s = GoBytes.nil ↔ buf = GoBytes.nil ∧ s.elems = [] := by
  cases buf <;> cases s <;> simp [GoBytes.append, GoBytes.elems]
  all_goals rename_i bs
  all_goals cases bs <;> simp

theorem GoBytes.append_of_elems_ne_nil (buf s : GoBytes) (hbuf : buf.elems = [])
    (hs : s.elems ≠ []) : GoBytes.append buf s = GoBytes.slice s.elems := by
  cases buf with
  | nil =>
    cases h : s.elems with
    | nil => exact absurd h hs
    | cons x xs => simp [GoBytes.append, h]
  | slice bs =>
    simp only [GoBytes.elems] at hbuf
    subst hbuf
    simp [GoBytes.append]

/-! ## Round trip of encoding and decoding -/

/-- C1, as stated, fails: the box with status `Null` and raw bytes `x` encodes
into the nil buffer without error, and decoding the returned bytes gives a box
whose raw bytes are not those of the original. -/
theorem C1_stale_null_box_not_restored :
    staleNullBox.Status = Status.Null ∧
    (@EncodeText Unit staleNullBox none GoBytes.nil).2 = none ∧
    (@DecodeText Unit Json.zero none (@EncodeText Unit staleNullBox none GoBytes.nil).1).1
      = { Bytes := GoBytes.nil, Status := Status.Null } ∧
    (@DecodeText Unit Json.zero none (@EncodeText Unit staleNullBox none GoBytes.nil).1).1
      ≠ staleNullBox ∧
    (@DecodeText Unit Json.zero none
      (@EncodeText Unit staleNullBox none GoBytes.nil).1).1.Bytes.elems
      ≠ staleNullBox.Bytes.elems := by
  decide

/-- C1, amended: for every box `b` that is `Null` with zero-length or absent
raw, or `Present` with a non-empty payload (every well-formed payload is
non-empty), `EncodeText` into an output buffer without elements (nil or of
length zero) returns no error, and `DecodeText` of the returned bytes, into any
box, returns no error and a box with the status of `b` and the raw bytes of
`b`; the decoded box is `b` itself unless the raw of `b` is the non-nil slice
of length zero. The same holds for `EncodeBinary` and `DecodeBinary`. -/
theorem C1_encode_decode_round_trip {E : Type} (b d : Json) (ci ci2 : Option ConnInfo)
    (buf : GoBytes)
    (hb : (b.Status = Status.Null ∧ b.Bytes.elems = []) ∨
      (b.Status = Status.Present ∧ b.Bytes.elems ≠ []))
    (hbuf : buf.elems = []) :
    ((@EncodeText E b ci buf).2 = none ∧
      (@DecodeText E d ci2 (@EncodeText E b ci buf).1).2 = none ∧
      (@DecodeText E d ci2 (@EncodeText E b ci buf).1).1.Status = b.Status ∧
      (@DecodeText E d ci2 (@EncodeText E b ci buf).1).1.Bytes.elems = b.Bytes.elems ∧
      (b.Bytes ≠ GoBytes.slice [] →
        (@DecodeText E d ci2 (@EncodeText E b ci buf).1).1 = b)) ∧
    ((@EncodeBinary E b ci buf).2 = none ∧
      (@DecodeBinary E d ci2 (@EncodeBinary E b ci buf).1).2 = none ∧
      (@DecodeBinary E d ci2 (@EncodeBinary E b ci buf).1).1.Status = b.Status ∧
      (@DecodeBinary E d ci2 (@EncodeBinary E b ci buf).1).1.Bytes.elems = b.Bytes.elems ∧
      (b.Bytes ≠ GoBytes.slice [] →
        (@DecodeBinary E d ci2 (@EncodeBinary E b ci buf).1).1 = b)) := by
  obtain ⟨bytes, status⟩ := b
  simp only [EncodeBinary, DecodeBinary, and_self]
  rcases hb with ⟨hs, he⟩ | ⟨hs, he⟩
  · simp only at hs he
    subst hs
    cases bytes with
    | nil => simp [EncodeText, DecodeText, GoBytes.elems]
    | slice bs =>
      simp only [GoBytes.elems] at he
      subst he
      simp [EncodeText, DecodeText, GoBytes.elems]
  · simp only at hs he
    subst hs
    cases bytes with
    | nil => simp [GoBytes.elems] at he
    | slice bs =>
      simp only [GoBytes.elems] at he
      have h := GoBytes.append_of_elems_ne_nil buf (GoBytes.slice bs) hbuf
        (by simpa [GoBytes.elems] using he)
      simp [EncodeText, DecodeText, h, GoBytes.elems]

/-- The amended round trip at a box of the transcoding test, the box holding
`{}`: text encoding into the nil buffer, binary encoding into the non-nil
buffer of length zero. -/
theorem C1_encode_decode_round_trip_witness :
    (@DecodeText Unit Json.zero none (@EncodeText Unit bracesBox none GoBytes.nil).1).1
      = bracesBox ∧
    (@DecodeBinary Unit Json.zero none
      (@EncodeBinary Unit bracesBox none (GoBytes.slice [])).1).1 = bracesBox :=
  ⟨(C1_encode_decode_round_trip bracesBox Json.zero none none GoBytes.nil
      (Or.inr ⟨rfl, by decide⟩) rfl).1.2.2.2.2 (by decide),
   (C1_encode_decode_round_trip bracesBox Json.zero none none (GoBytes.slice [])
      (Or.inr ⟨rfl, by decide⟩) rfl).2.2.2.2.2 (by decide)⟩

/-! ## Encoding -/

/-- C2: for every box and every output buffer, `EncodeText` returns an error
if and only if the status of the box is `Undefined`; in that case the error is
`errUndefined` and the returned bytes are nil. The same holds for
`EncodeBinary`. -/
theorem C2_encode_fails_iff_undefined {E : Type} (b : Json) (ci : Option ConnInfo)
    (buf : GoBytes) :
    (((@EncodeText E b ci buf).2 ≠ none ↔ b.Status = Status.Undefined) ∧
      (b.Status = Status.Undefined →
        @EncodeText E b ci buf = (GoBytes.nil, some Error.errUndefined))) ∧
    (((@EncodeBinary E b ci buf).2 ≠ none ↔ b.Status = Status.Undefined) ∧
      (b.Status = Status.Undefined →
        @EncodeBinary E b ci buf = (GoBytes.nil, some Error.errUndefined))) := by
  obtain ⟨bytes, status⟩ := b
  cases status <;> simp [EncodeBinary, EncodeText]

/-- C2 at the zero-valued box and a buffer that already holds a byte: the
error is `errUndefined` and no bytes are returned. -/
theorem C2_encode_fails_iff_undefined_witness :
    @EncodeText Unit Json.zero none (GoBytes.slice [1]) =
      (GoBytes.nil, some Error.errUndefined) :=
  (C2_encode_fails_iff_undefined Json.zero none (GoBytes.slice [1])).1.2 rfl

/-- C3, as stated, fails: the `Present` box whose raw is the non-nil slice of
length zero, encoded into the nil buffer, succeeds with the nil result, the
result of a `Null` box. -/
theorem C3_present_empty_into_nil_buffer :
    emptyPresentBox.Status = Status.Present ∧
    emptyPresentBox.Status ≠ Status.Null ∧
    emptyPresentBox.Bytes.len = 0 ∧
    @EncodeText Unit emptyPresentBox none GoBytes.nil = (GoBytes.nil, none) := by
  decide

/-- C3, amended: for every box and every output buffer, `EncodeText` succeeds
with the nil ("no bytes") result if and only if the status is `Null`, or the
status is `Present`, the raw has length zero and the output buffer is nil. So
for every non-nil output buffer it does so if and only if the status is
`Null`, and a `Present` box with zero-length raw then returns a non-nil
result. -/
theorem C3_no_bytes_iff {E : Type} (b : Json) (ci : Option ConnInfo) (buf : GoBytes) :
    (@EncodeText E b ci buf = (GoBytes.nil, none) ↔
      (b.Status = Status.Null ∨
        (b.Status = Status.Present ∧ b.Bytes.len = 0 ∧ buf = GoBytes.nil))) ∧
    (buf ≠ GoBytes.nil →
      (@EncodeText E b ci buf = (GoBytes.nil, none) ↔ b.Status = Status.Null)) ∧
    (buf ≠ GoBytes.nil → b.Status = Status.Present →
      (@EncodeText E b ci buf).1 ≠ GoBytes.nil) := by
  obtain ⟨bytes, status⟩ := b
  cases status
  · simp [EncodeText]
  · simp [EncodeText]
  · have h := GoBytes.append_eq_nil_iff buf bytes
    simp only [EncodeText, Prod.mk.injEq, and_true, h, GoBytes.len, List.length_eq_zero]
    refine ⟨by simp; tauto, fun hb => by simp [hb], fun hb _ => ?_⟩
    intro hn
    exact hb (h.mp hn).1

/-- C3, amended, at the `Present` box with zero-length raw and the non-nil
buffer of length zero: the result is not the "no bytes" signal. -/
theorem C3_no_bytes_iff_witness :
    (@EncodeText Unit emptyPresentBox none (GoBytes.slice [])).1 ≠ GoBytes.nil :=
  (C3_no_bytes_iff emptyPresentBox none (GoBytes.slice [])).2.2 (by decide) rfl

/-- C4: for every `Present` box with raw bytes `r` and every output buffer
`buf`, `EncodeText` returns no error and returns `buf` followed by `r`: the
elements of the result are those of `buf` followed by those of `r`, so `buf`
is an initial segment of the result, `r` is its final segment, and its length
is `len(buf) + len(r)`. -/
theorem C4_encode_present_appends {E : Type} (b : Json) (ci : Option ConnInfo)
    (buf : GoBytes) (hb : b.Status = Status.Present) :
    (@EncodeText E b ci buf).2 = none ∧
    (@EncodeText E b ci buf).1.elems = buf.elems ++ b.Bytes.elems ∧
    buf.elems <+: (@EncodeText E b ci buf).1.elems ∧
    b.Bytes.elems <:+ (@EncodeText E b ci buf).1.elems ∧
    (@EncodeText E b ci buf).1.len = buf.len + b.Bytes.len := by
  obtain ⟨bytes, status⟩ := b
  simp only at hb
  subst hb
  have h := GoBytes.elems_append buf bytes
  simp only [EncodeText, GoBytes.len, h, List.length_append, true_and, and_true]
  exact ⟨List.prefix_append _ _, List.suffix_append _ _⟩

/-- C4 at the box holding `{}` and a buffer holding the bytes 1 and 2. -/
theorem C4_encode_present_appends_witness :
    (@EncodeText Unit bracesBox none (GoBytes.slice [1, 2])).2 = none ∧
    (@EncodeText Unit bracesBox none (GoBytes.slice [1, 2])).1.elems =
      [1, 2] ++ [123, 125] :=
  ⟨(C4_encode_present_appends bracesBox none (GoBytes.slice [1, 2]) rfl).1,
   (C4_encode_present_appends bracesBox none (GoBytes.slice [1, 2]) rfl).2.1⟩

/-! ## Decoding -/

/-- C5: `DecodeText` never fails: for every prior box and every input it
returns no error; the nil input leaves the box `Null` with nil raw, and a
non-nil input, of any content and any length (zero included), leaves the box
`Present` with raw equal to the input. The same holds for `DecodeBinary`. -/
theorem C5_decode_total {E : Type} (d : Json) (ci : Option ConnInfo) (src : GoBytes)
    (bs : List Byte) :
    ((@DecodeText E d ci src).2 = none ∧
      @DecodeText E d ci GoBytes.nil =
        ({ Bytes := GoBytes.nil, Status := Status.Null }, none) ∧
      @DecodeText E d ci (GoBytes.slice bs) =
        ({ Bytes := GoBytes.slice bs, Status := Status.Present }, none)) ∧
    ((@DecodeBinary E d ci src).2 = none ∧
      @DecodeBinary E d ci GoBytes.nil =
        ({ Bytes := GoBytes.nil, Status := Status.Null }, none) ∧
      @DecodeBinary E d ci (GoBytes.slice bs) =
        ({ Bytes := GoBytes.slice bs, Status := Status.Present }, none)) := by
  simp only [DecodeBinary, and_self]
  refine ⟨?_, by simp [DecodeText], by simp [DecodeText]⟩
  cases src <;> simp [DecodeText]

/-! ## AssignTo -/

theorem AssignTo_pString_of_not_present {V I D E : Type} (lib : Lib V I D E) (src : Json)
    (v : Ptr) (st : Store) (h : src.Status ≠ Status.Present) :
    AssignTo lib src (Dest.pString v) st = some ⟨st, none, []⟩ := by
  rw [AssignTo]
  simp [h]

theorem AssignTo_pString_of_present {V I D E : Type} (lib : Lib V I D E) (src : Json)
    (a : Nat) (st : Store) (h : src.Status = Status.Present) (ha : a < st.strings.length) :
    AssignTo lib src (Dest.pString (some a)) st =
      some ⟨{ st with strings := st.strings.set a (GoBytes.toGoString src.Bytes) },
        none, []⟩ := by
  rw [AssignTo]
  simp [h, Store.writeString, ha]

/-- C6, at a failing input: `AssignTo` of the `Null` box into a `*string`
whose variable holds `old` returns no error and leaves `old` in the variable,
not the empty string. -/
theorem C6_assign_to_string_keeps_prior_content :
    (AssignTo failingLib nullBox (Dest.pString (some 0)) callerStore).map
        (fun r => (r.err, r.store.strings[0]?)) = some (none, some oldText) ∧
    oldText ≠ [] := by
  refine ⟨?_, by decide⟩
  rw [AssignTo_pString_of_not_present failingLib nullBox (some 0) callerStore (by decide)]
  rfl

/-- C7: `AssignTo` into a `*[]byte` whose variable is at address `a`, for
every box and every prior content of the variable: the call returns no error;
when the status is not `Present` the variable becomes nil, and so is not a
slice of length zero; when the status is `Present` it becomes a non-nil slice
with the elements, hence the length, of raw. No other variable changes. -/
theorem C7_assign_to_bytes {V I D E : Type} (lib : Lib V I D E) (src : Json) (a : Nat)
    (st : Store) (ha : a < st.byteSlices.length) :
    ∃ r : AssignResult D E,
      AssignTo lib src (Dest.pBytes (some a)) st = some r ∧
      r.err = none ∧
      (src.Status ≠ Status.Present →
        r.store.byteSlices[a]? = some GoBytes.nil ∧
        r.store.byteSlices[a]? ≠ some (GoBytes.slice [])) ∧
      (src.Status = Status.Present →
        r.store.byteSlices[a]? = some (GoBytes.slice src.Bytes.elems) ∧
        (GoBytes.slice src.Bytes.elems).len = src.Bytes.len) ∧
      (∀ k, k ≠ a → r.store.byteSlices[k]? = st.byteSlices[k]?) ∧
      r.store.strings = st.strings ∧ r.store.stringPtrs = st.stringPtrs := by
  by_cases h : src.Status = Status.Present
  · refine ⟨⟨{ st with byteSlices := st.byteSlices.set a (GoBytes.makeCopy src.Bytes) },
      none, []⟩, ?_, rfl, ?_, ?_, ?_, rfl, rfl⟩
    · rw [AssignTo]
      simp [h, Store.writeBytes, ha]
    · intro hn
      exact absurd h hn
    · intro _
      simp [GoBytes.makeCopy, GoBytes.len, GoBytes.elems, List.getElem?_set, ha]
    · intro k hk
      simp [List.getElem?_set, Ne.symm hk]
  · refine ⟨⟨{ st with byteSlices := st.byteSlices.set a GoBytes.nil }, none, []⟩,
      ?_, rfl, ?_, ?_, ?_, rfl, rfl⟩
    · rw [AssignTo]
      simp [h, Store.writeBytes, ha]
    · intro _
      simp [List.getElem?_set, ha]
    · intro hp
      exact absurd hp h
    · intro k hk
      simp [List.getElem?_set, Ne.symm hk]

/-- C7 at the `Null` box and a `[]byte` variable holding the byte 7: the call
succeeds and the variable is nil afterwards. -/
theorem C7_assign_to_bytes_witness :
    0 < callerStore.byteSlices.length ∧
    ∃ r : AssignResult Unit Unit,
      AssignTo failingLib nullBox (Dest.pBytes (some 0)) callerStore = some r ∧
      r.err = none ∧ r.store.byteSlices[0]? = some GoBytes.nil :=
  ⟨by decide,
    match C7_assign_to_bytes failingLib nullBox 0 callerStore (by decide) with
    | ⟨r, hr, he, hn, _⟩ => ⟨r, hr, he, (hn (by decide)).1⟩⟩

/-- C8: `AssignTo` into a `**string` whose `*string` variable is at address
`a`, for every box (a `Null` one included) and every prior value of that
variable (nil included): the call returns no error, and afterwards the
variable holds a non-nil pointer to a string variable that did not exist
before the call; that variable holds the empty string when the status is not
`Present` and raw as text when it is. No other variable changes. -/
theorem C8_assign_to_string_ptr_ptr {V I D E : Type} (lib : Lib V I D E) (src : Json)
    (a : Nat) (st : Store) (ha : a < st.stringPtrs.length) :
    ∃ r : AssignResult D E,
      AssignTo lib src (Dest.ppString (some a)) st = some r ∧
      r.err = none ∧
      r.store.stringPtrs[a]? = some (some st.strings.length) ∧
      st.strings[st.strings.length]? = none ∧
      (src.Status ≠ Status.Present → r.store.strings[st.strings.length]? = some []) ∧
      (src.Status = Status.Present →
        r.store.strings[st.strings.length]? = some (GoBytes.toGoString src.Bytes)) ∧
      (∀ k, k < st.strings.length → r.store.strings[k]? = st.strings[k]?) ∧
      (∀ k, k ≠ a → r.store.stringPtrs[k]? = st.stringPtrs[k]?) ∧
      r.store.byteSlices = st.byteSlices := by
  have hstep : AssignTo lib src (Dest.ppString (some a)) st =
      AssignTo lib src (Dest.pString (some st.strings.length))
        { strings := st.strings ++ [[]],
          stringPtrs := st.stringPtrs.set a (some st.strings.length),
          byteSlices := st.byteSlices } := by
    conv_lhs => rw [AssignTo]
    simp [Store.newString, Store.writeStringPtr, Store.readStringPtr, ha]
  by_cases h : src.Status = Status.Present
  · rw [hstep, AssignTo_pString_of_present lib src _ _ h (by simp)]
    refine ⟨_, rfl, rfl, ?_, by simp, ?_, ?_, ?_, ?_, rfl⟩
    · simp [List.getElem?_set, ha]
    · intro hn
      exact absurd h hn
    · intro _
      simp [List.getElem?_set]
    · intro k hk
      simp [List.getElem?_set, Nat.ne_of_gt hk, List.getElem?_append_left hk]
    · intro k hk
      simp [List.getElem?_set, Ne.symm hk]
  · rw [hstep, AssignTo_pString_of_not_present lib src _ _ h]
    refine ⟨_, rfl, rfl, ?_, by simp, ?_, ?_, ?_, ?_, rfl⟩
    · simp [List.getElem?_set, ha]
    · intro _
      simp
    · intro hp
      exact absurd hp h
    · intro k hk
      simp [List.getElem?_append_left hk]
    · intro k hk
      simp [List.getElem?_set, Ne.symm hk]

/-- C8 at the `Null` box and a `*string` variable holding nil: afterwards the
variable holds a pointer to a new string variable, which holds the empty
string. -/
theorem C8_assign_to_string_ptr_ptr_witness :
    0 < callerStore.stringPtrs.length ∧
    callerStore.stringPtrs[0]? = some none ∧
    ∃ r : AssignResult Unit Unit,
      AssignTo failingLib nullBox (Dest.ppString (some 0)) callerStore = some r ∧
      r.err = none ∧ r.store.stringPtrs[0]? = some (some 1) ∧
      r.store.strings[1]? = some [] :=
  ⟨by decide, by decide,
    match C8_assign_to_string_ptr_ptr failingLib nullBox 0 callerStore (by decide) with
    | ⟨r, hr, he, hp, _, hn, _⟩ => ⟨r, hr, he, hp, hn (by decide)⟩⟩

/-! ## Set -/

/-- C9: for every prior box, `Set` with the nil interface, with a nil
`*string` or with a nil `[]byte` returns no error and leaves the box equal to
`Json{Status: Null}`: status `Null`, raw nil. -/
theorem C9_set_nil_gives_null {V I D E : Type} (lib : Lib V I D E) (d : Json) :
    ((Set lib d Src.nil).err = none ∧
      (Set lib d Src.nil).box = { Bytes := GoBytes.nil, Status := Status.Null }) ∧
    ((Set lib d (Src.strPtr none)).err = none ∧
      (Set lib d (Src.strPtr none)).box =
        { Bytes := GoBytes.nil, Status := Status.Null }) ∧
    ((Set lib d (Src.bytes GoBytes.nil)).err = none ∧
      (Set lib d (Src.bytes GoBytes.nil)).box =
        { Bytes := GoBytes.nil, Status := Status.Null }) := by
  simp [Set]

/-- C10: for every prior box, `Set` with a string `s`, with a non-nil
`*string` pointing to `s`, or with a non-nil `[]byte` `bs` returns no error,
makes no call of `json.Marshal`, and leaves the box `Present` with raw equal to
the bytes of `s` (of `bs`), whatever these bytes are; the empty string and the
non-nil slice of length zero are included. -/
theorem C10_set_raw_gives_present {V I D E : Type} (lib : Lib V I D E) (d : Json)
    (s : GoString) (bs : List Byte) :
    ((Set lib d (Src.str s)).err = none ∧
      (Set lib d (Src.str s)).marshalCalls = [] ∧
      (Set lib d (Src.str s)).box =
        { Bytes := GoBytes.slice s, Status := Status.Present }) ∧
    ((Set lib d (Src.strPtr (some s))).err = none ∧
      (Set lib d (Src.strPtr (some s))).marshalCalls = [] ∧
      (Set lib d (Src.strPtr (some s))).box =
        { Bytes := GoBytes.slice s, Status := Status.Present }) ∧
    ((Set lib d (Src.bytes (GoBytes.slice bs))).err = none ∧
      (Set lib d (Src.bytes (GoBytes.slice bs))).marshalCalls = [] ∧
      (Set lib d (Src.bytes (GoBytes.slice bs))).box =
        { Bytes := GoBytes.slice bs, Status := Status.Present }) := by
  simp [Set, GoBytes.ofString]

/-- C11: `Set` with an input `v` that is none of nil, string, `*string` and
`[]byte` calls `json.Marshal` once, on `v`, and returns an error if and only if
that call fails, the error being the one of `json.Marshal`; when the call
fails the box is the box before the call, and when it succeeds the box is
`Present` with raw equal to the bytes `json.Marshal` returned. -/
theorem C11_set_atomic_on_marshal_failure {V I D E : Type} (lib : Lib V I D E) (d : Json)
    (v : V) :
    (Set lib d (Src.other v)).marshalCalls = [v] ∧
    ((Set lib d (Src.other v)).err ≠ none ↔ (lib.Marshal v).2 ≠ none) ∧
    (Set lib d (Src.other v)).err = (lib.Marshal v).2.map Error.json ∧
    ((lib.Marshal v).2 ≠ none → (Set lib d (Src.other v)).box = d) ∧
    ((lib.Marshal v).2 = none →
      (Set lib d (Src.other v)).box =
        { Bytes := (lib.Marshal v).1, Status := Status.Present }) := by
  rcases h : lib.Marshal v with ⟨buf, _ | e⟩ <;> simp [Set, h]

/-- C11 at a failing serializer and the box holding `{}`: `Set` returns the
error and the box still holds `{}`. -/
theorem C11_set_atomic_on_marshal_failure_witness :
    (Set failingLib bracesBox (Src.other ())).err = some (Error.json ()) ∧
    (Set failingLib bracesBox (Src.other ())).box = bracesBox :=
  ⟨(C11_set_atomic_on_marshal_failure failingLib bracesBox ()).2.2.1,
   (C11_set_atomic_on_marshal_failure failingLib bracesBox ()).2.2.2.1 (by decide)⟩

/-! ## Get -/

theorem Get_present_of_unmarshal_ok {V I D E : Type} (lib : Lib V I D E) (raw : GoBytes)
    (h : (lib.UnmarshalIface raw).2 = none) :
    Get lib { Bytes := raw, Status := Status.Present } =
      Iface.ofOption (lib.UnmarshalIface raw).1 := by
  rcases hu : lib.UnmarshalIface raw with ⟨_ | i, _ | e⟩ <;>
    simp_all [Get, Iface.ofOption]

theorem Set_other_result {V I D E : Type} (lib : Lib V I D E)
    (d : Json) (v : V) :
    (Set lib d (Src.other v)).err = (lib.Marshal v).2.map Error.json ∧
    ((lib.Marshal v).2 = none →
      (Set lib d (Src.other v)).box =
        { Bytes := (lib.Marshal v).1, Status := Status.Present }) := by
  rcases h : lib.Marshal v with ⟨buf, _ | e⟩ <;> simp [Set, h]

/-- C12: `Get` returns a value for every box and has no error result. For a
`Null` box it returns the nil interface; for an `Undefined` box the status
itself; for a `Present` box the value `json.Unmarshal` decoded from raw when
that call succeeds, and otherwise the box itself, with its status and raw
unchanged. -/
theorem C12_get_total {V I D E : Type} (lib : Lib V I D E) (raw : GoBytes) :
    Get lib { Bytes := raw, Status := Status.Null } = Iface.nil ∧
    Get lib { Bytes := raw, Status := Status.Undefined } = Iface.status Status.Undefined ∧
    ((lib.UnmarshalIface raw).2 = none →
      Get lib { Bytes := raw, Status := Status.Present } =
        Iface.ofOption (lib.UnmarshalIface raw).1) ∧
    ((lib.UnmarshalIface raw).2 ≠ none →
      Get lib { Bytes := raw, Status := Status.Present } =
        Iface.jsonPtr { Bytes := raw, Status := Status.Present }) := by
  refine ⟨rfl, rfl, ?_, ?_⟩
  · intro h
    rcases hu : lib.UnmarshalIface raw with ⟨_ | i, _ | e⟩ <;>
      simp_all [Get, Iface.ofOption]
  · intro h
    rcases hu : lib.UnmarshalIface raw with ⟨_ | i, _ | e⟩ <;>
      simp_all [Get, Iface.ofOption]

/-- C12 at the box holding `{}`, once with a deserializer that accepts `{}`
and once with one that fails: the empty map, and the box itself. -/
theorem C12_get_total_witness :
    Get sampleLib bracesBox = Iface.dyn SampleValue.emptyMap ∧
    Get failingLib bracesBox = Iface.jsonPtr bracesBox :=
  ⟨(C12_get_total sampleLib (GoBytes.slice [123, 125])).2.2.1 (by decide),
   (C12_get_total failingLib (GoBytes.slice [123, 125])).2.2.2 (by decide)⟩

/-! ## The structured path of AssignTo -/

/-- C13: for a destination `d` that is none of `*string`, `**string` and
`*[]byte`, `AssignTo` makes one call `json.Unmarshal(data, d)` and returns its
error unchanged, with the variables as that call left them; `data` is raw when
the status is `Present` and raw is not nil, and the four bytes `null` when the
status is `Undefined` or `Null` or raw is nil. -/
theorem C13_assign_to_structured {V I D E : Type} (lib : Lib V I D E) (src : Json) (d : D)
    (st : Store) :
    ∃ data : GoBytes,
      AssignTo lib src (Dest.other d) st =
        some ⟨(lib.Unmarshal data d st).1, (lib.Unmarshal data d st).2.map Error.json,
          [(data, d)]⟩ ∧
      (src.Status = Status.Present ∧ src.Bytes ≠ GoBytes.nil → data = src.Bytes) ∧
      (src.Status = Status.Undefined ∨ src.Status = Status.Null ∨ src.Bytes = GoBytes.nil →
        data = GoBytes.slice [110, 117, 108, 108] ∧ data.len = 4) := by
  obtain ⟨bytes, status⟩ := src
  by_cases h : bytes = GoBytes.nil ∨ status ≠ Status.Present
  · refine ⟨GoBytes.slice [110, 117, 108, 108], ?_, ?_, fun _ => ⟨rfl, rfl⟩⟩
    · rw [AssignTo]
      simp [h, GoBytes.ofString, nullLiteral]
    · rintro ⟨hs, hb⟩
      rcases h with h | h
      · exact absurd h hb
      · exact absurd hs h
  · have hb : bytes ≠ GoBytes.nil := fun hb => h (Or.inl hb)
    have hs : status = Status.Present := by
      by_contra hs
      exact h (Or.inr hs)
    refine ⟨bytes, ?_, fun _ => rfl, ?_⟩
    · rw [AssignTo]
      simp [h]
    · subst hs
      intro hc
      rcases hc with hc | hc | hc
      · simp at hc
      · simp at hc
      · exact absurd hc hb

/-- C13 at the `Null` box: the deserializer is called on `null` and its error
is returned. -/
theorem C13_assign_to_structured_witness :
    AssignTo failingLib nullBox (Dest.other ()) callerStore =
      some ⟨callerStore, some (Error.json ()), [(GoBytes.slice [110, 117, 108, 108], ())]⟩ :=
  match C13_assign_to_structured failingLib nullBox () callerStore with
  | ⟨_, hr, _, hn⟩ => by
    rw [hr, (hn (Or.inr (Or.inl rfl))).1]
    rfl

/-! ## Scan -/

/-- C14: `Scan` returns an error if and only if its input is none of nil, a
string and a byte sequence; the error then carries the name of the input's
type and the box is the box before the call. With nil the box becomes `Null`
with nil raw, and with a string `s` it becomes `Present` with raw equal to the
bytes of `s`. -/
theorem C14_scan_fails_iff_other_type {V I D E : Type} (lib : Lib V I D E) (d : Json)
    (src : Src V) (s : GoString) (p : Option GoString) (v : V) :
    ((Scan lib d src).2 ≠ none ↔
      (src ≠ Src.nil ∧ (∀ t, src ≠ Src.str t) ∧ (∀ b, src ≠ Src.bytes b))) ∧
    ((Scan lib d src).2 ≠ none → (Scan lib d src).1 = d) ∧
    Scan lib d (Src.strPtr p) = (d, some (Error.cannotScan "*string")) ∧
    Scan lib d (Src.other v) = (d, some (Error.cannotScan (lib.typeName v))) ∧
    Scan lib d Src.nil = ({ Bytes := GoBytes.nil, Status := Status.Null }, none) ∧
    Scan lib d (Src.str s) = ({ Bytes := GoBytes.slice s, Status := Status.Present }, none) := by
  refine ⟨?_, ?_, rfl, rfl, rfl, by simp [Scan, DecodeText, GoBytes.ofString]⟩
  · cases src <;> simp [Scan, DecodeText, GoBytes.ofString, GoBytes.makeCopy]
  · cases src <;> simp [Scan, DecodeText, GoBytes.ofString, GoBytes.makeCopy]

/-- C14 at a value of another type and the box holding `{}`: the error names
the type and the box still holds `{}`. -/
theorem C14_scan_fails_iff_other_type_witness :
    (Scan sampleLib bracesBox (Src.other ())).1 = bracesBox ∧
    (Scan sampleLib bracesBox (Src.other ())).2 =
      some (Error.cannotScan "map[string]interface {}") :=
  ⟨(C14_scan_fails_iff_other_type sampleLib bracesBox (Src.other ()) [] none ()).2.1
      (by decide),
   congrArg Prod.snd
    (C14_scan_fails_iff_other_type sampleLib bracesBox (Src.other ()) [] none ()).2.2.2.1⟩

/-- C20: for every byte sequence `bs`, the nil one included, `Scan` returns no
error and leaves the box `Present` with a raw that has the elements, hence the
length, of `bs`. For the nil byte sequence `Scan` leaves `Present` with the
non-nil raw of length zero, where `Set` leaves `Null`. -/
theorem C20_scan_bytes_gives_present {V I D E : Type} (lib : Lib V I D E) (d : Json)
    (bs : GoBytes) :
    Scan lib d (Src.bytes bs) =
      ({ Bytes := GoBytes.slice bs.elems, Status := Status.Present }, none) ∧
    (Scan lib d (Src.bytes bs)).1.Bytes.len = bs.len ∧
    Scan lib d (Src.bytes GoBytes.nil) =
      ({ Bytes := GoBytes.slice [], Status := Status.Present }, none) ∧
    (Set lib d (Src.bytes GoBytes.nil)).box =
      { Bytes := GoBytes.nil, Status := Status.Null } := by
  simp [Scan, DecodeText, GoBytes.makeCopy, GoBytes.len, GoBytes.elems, Set]

/-! ## The invariant of the data model -/

theorem WriteCall.run_rawOnlyWhenPresent {V I D E : Type} (lib : Lib V I D E) (b : Json)
    (c : WriteCall V) (hb : b.RawOnlyWhenPresent) : (c.run lib b).RawOnlyWhenPresent := by
  cases c with
  | set src =>
    cases src with
    | nil => simp [WriteCall.run, Set, Json.RawOnlyWhenPresent, GoBytes.len, GoBytes.elems]
    | str s => simp [WriteCall.run, Set, Json.RawOnlyWhenPresent]
    | strPtr p =>
      cases p <;> simp [WriteCall.run, Set, Json.RawOnlyWhenPresent, GoBytes.len, GoBytes.elems]
    | bytes bs =>
      by_cases h : bs = GoBytes.nil <;>
        simp [WriteCall.run, Set, Json.RawOnlyWhenPresent, GoBytes.len, GoBytes.elems, h]
    | other v =>
      rcases h : lib.Marshal v with ⟨buf, _ | e⟩
      · simp [WriteCall.run, Set, Json.RawOnlyWhenPresent, h]
      · simpa [WriteCall.run, Set, h] using hb
  | decodeText ci src =>
    by_cases h : src = GoBytes.nil <;>
      simp [WriteCall.run, DecodeText, Json.RawOnlyWhenPresent, GoBytes.len, GoBytes.elems, h]
  | decodeBinary ci src =>
    by_cases h : src = GoBytes.nil <;>
      simp [WriteCall.run, DecodeBinary, DecodeText, Json.RawOnlyWhenPresent, GoBytes.len,
        GoBytes.elems, h]
  | scan src =>
    cases src with
    | nil => simp [WriteCall.run, Scan, Json.RawOnlyWhenPresent, GoBytes.len, GoBytes.elems]
    | str s => simp [WriteCall.run, Scan, DecodeText, GoBytes.ofString, Json.RawOnlyWhenPresent]
    | strPtr p => simpa [WriteCall.run, Scan] using hb
    | bytes bs =>
      simp [WriteCall.run, Scan, DecodeText, GoBytes.makeCopy, Json.RawOnlyWhenPresent]
    | other v => simpa [WriteCall.run, Scan] using hb

theorem runCalls_rawOnlyWhenPresent {V I D E : Type} (lib : Lib V I D E)
    (calls : List (WriteCall V)) (b : Json) (hb : b.RawOnlyWhenPresent) :
    (runCalls lib b calls).RawOnlyWhenPresent := by
  induction calls generalizing b with
  | nil => simpa [runCalls] using hb
  | cons c cs ih =>
    have h := ih (c.run lib b) (WriteCall.run_rawOnlyWhenPresent lib b c hb)
    simpa [runCalls] using h

/-- C16: starting from the zero-valued box (status `Undefined`, raw nil),
after every finite sequence of calls of `Set`, `DecodeText`, `DecodeBinary` and
`Scan`, with any arguments and whether the calls succeed or fail, raw has
length zero whenever the status is not `Present`. -/
theorem C16_raw_only_when_present {V I D E : Type} (lib : Lib V I D E)
    (calls : List (WriteCall V)) :
    (runCalls lib Json.zero calls).Status ≠ Status.Present →
      (runCalls lib Json.zero calls).Bytes.len = 0 :=
  runCalls_rawOnlyWhenPresent lib calls Json.zero (by
    intro _
    rfl)

/-- C16 at a sequence of three calls: `Set` with the string `{}`, `Scan` with a
value of another type (which fails), `DecodeText` with nil. -/
theorem C16_raw_only_when_present_witness :
    (runCalls sampleLib Json.zero
      [WriteCall.set (Src.str bracesText), WriteCall.scan (Src.other ()),
        WriteCall.decodeText none GoBytes.nil]).Status ≠ Status.Present ∧
    (runCalls sampleLib Json.zero
      [WriteCall.set (Src.str bracesText), WriteCall.scan (Src.other ()),
        WriteCall.decodeText none GoBytes.nil]).Bytes.len = 0 :=
  ⟨by decide,
   C16_raw_only_when_present sampleLib
    [WriteCall.set (Src.str bracesText), WriteCall.scan (Src.other ()),
      WriteCall.decodeText none GoBytes.nil] (by decide)⟩

/-! ## Get after Set -/

/-- C17, as stated, fails for a string input: `Set` with the string `{}` stores
the two bytes `{}` as raw, and `Get` then returns the empty map; the
serialization of the string `{}` is the quoted text `"{}"`, whose
deserialization is the string `{}`, not the empty map. -/
theorem C17_get_after_set_string_is_not_canonical :
    (Set sampleLib Json.zero (Src.str bracesText)).err = none ∧
    (Set sampleLib Json.zero (Src.str bracesText)).box = bracesBox ∧
    Get sampleLib (Set sampleLib Json.zero (Src.str bracesText)).box =
      Iface.dyn SampleValue.emptyMap ∧
    Iface.ofOption (sampleLib.UnmarshalIface (GoBytes.slice (quoted bracesText))).1 =
      Iface.dyn (SampleValue.text bracesText) ∧
    Get sampleLib (Set sampleLib Json.zero (Src.str bracesText)).box ≠
      Iface.ofOption (sampleLib.UnmarshalIface (GoBytes.slice (quoted bracesText))).1 := by
  decide

/-- C17, amended: for every input `v` that is none of nil, string, `*string`
and `[]byte` and on which `json.Marshal` succeeds, `Set` returns no error and
`Get` after it returns the deserialization of the serialization of `v`, when
that deserialization succeeds. For a string `s`, a non-nil `*string` pointing
to `s` and a non-nil `[]byte` holding `s`, `Get` after `Set` returns the
deserialization of the bytes of `s` themselves, when it succeeds. -/
theorem C17_get_after_set {V I D E : Type} (lib : Lib V I D E) (d : Json) (v : V)
    (s : List Byte) :
    ((lib.Marshal v).2 = none → (lib.UnmarshalIface (lib.Marshal v).1).2 = none →
      (Set lib d (Src.other v)).err = none ∧
      Get lib (Set lib d (Src.other v)).box =
        Iface.ofOption (lib.UnmarshalIface (lib.Marshal v).1).1) ∧
    ((lib.UnmarshalIface (GoBytes.slice s)).2 = none →
      Get lib (Set lib d (Src.str s)).box =
        Iface.ofOption (lib.UnmarshalIface (GoBytes.slice s)).1 ∧
      Get lib (Set lib d (Src.strPtr (some s))).box =
        Iface.ofOption (lib.UnmarshalIface (GoBytes.slice s)).1 ∧
      Get lib (Set lib d (Src.bytes (GoBytes.slice s))).box =
        Iface.ofOption (lib.UnmarshalIface (GoBytes.slice s)).1) := by
  constructor
  · intro hm hu
    have hb := (Set_other_result lib d v).2 hm
    refine ⟨(Set_other_result lib d v).1.trans (by simp [hm]), ?_⟩
    rw [hb]
    exact Get_present_of_unmarshal_ok lib _ hu
  · intro hu
    have h := Get_present_of_unmarshal_ok lib (GoBytes.slice s) hu
    simpa [Set, GoBytes.ofString] using h

/-- C17, amended, at the empty map: `Get` after `Set` returns the empty map,
the deserialization of its serialization `{}`. -/
theorem C17_get_after_set_witness :
    (Set sampleLib Json.zero (Src.other ())).err = none ∧
    Get sampleLib (Set sampleLib Json.zero (Src.other ())).box =
      Iface.dyn SampleValue.emptyMap :=
  (C17_get_after_set sampleLib Json.zero () []).1 (by decide) (by decide)

/-! ## Value and Scan -/

/-- C19, as stated, fails: `Value` of the box with status `Null` and raw bytes
`x` succeeds with the nil value, and `Scan` of that value gives a `Null` box
whose raw has no bytes, not the byte `x` of the original. -/
theorem C19_stale_null_box_not_rescanned :
    staleNullBox.Status = Status.Null ∧
    (@Value Unit Unit staleNullBox).2 = none ∧
    (Scan failingLib Json.zero (@Value Unit Unit staleNullBox).1).2 = none ∧
    (Scan failingLib Json.zero (@Value Unit Unit staleNullBox).1).1.Status =
      staleNullBox.Status ∧
    (Scan failingLib Json.zero (@Value Unit Unit staleNullBox).1).1.Bytes.elems ≠
      staleNullBox.Bytes.elems := by
  decide

/-- C19, amended: `Value` fails exactly when the status is `Undefined`, and
then with `errUndefined`. For every box that is `Present`, or `Null` with
zero-length or absent raw (as the invariant of the data model requires),
`Value` succeeds and `Scan` of the value it returns, into any box, returns no
error and yields a box with the same status and raw bytes of the same
content. -/
theorem C19_value_scan_round_trip {V I D E : Type} (lib : Lib V I D E) (b d : Json)
    (hinv : b.Status = Status.Null → b.Bytes.len = 0) :
    ((@Value V E b).2 ≠ none ↔ b.Status = Status.Undefined) ∧
    (b.Status = Status.Undefined → (@Value V E b).2 = some Error.errUndefined) ∧
    (b.Status ≠ Status.Undefined →
      (@Value V E b).2 = none ∧
      (Scan lib d (@Value V E b).1).2 = none ∧
      (Scan lib d (@Value V E b).1).1.Status = b.Status ∧
      (Scan lib d (@Value V E b).1).1.Bytes.elems = b.Bytes.elems) := by
  obtain ⟨bytes, status⟩ := b
  cases status
  · simp [Value]
  · have h : bytes.elems = [] := by simpa [GoBytes.len] using hinv rfl
    simp [Value, Scan, h]
    simp [GoBytes.elems]
  · simp [Value, Scan, DecodeText, GoBytes.ofString, GoBytes.toGoString, GoBytes.elems]

/-- C19, amended, at the box holding `{}`: scanning its value into the
zero-valued box gives the box holding `{}` again. -/
theorem C19_value_scan_round_trip_witness :
    (Scan failingLib Json.zero (@Value Unit Unit bracesBox).1).2 = none ∧
    (Scan failingLib Json.zero (@Value Unit Unit bracesBox).1).1.Status = Status.Present ∧
    (Scan failingLib Json.zero (@Value Unit Unit bracesBox).1).1.Bytes.elems = [123, 125] :=
  ((C19_value_scan_round_trip failingLib bracesBox Json.zero (by decide)).2.2
    (by decide)).2

/-! ## Facts about memory -/

theorem Mem.window_after_set (a : List Byte) (off len i : Nat) (x : Byte) :
    ((a.set (off + i) x).drop off).take len = ((a.drop off).take len).set i x := by
  rw [← List.set_drop, List.set_take]

/-! ## DecodeText keeps the caller's buffer -/

/-- C18, as stated, fails: after `DecodeText` of the caller's buffer holding
`{}`, the box holds `{}`; when the caller then writes the byte `[` at index 0
of its buffer, the raw of the box reads `[}`, not the `{}` the buffer held at
the time of the call. -/
theorem C18_box_sees_later_write :
    (@DecodeTextM Unit wireMem firstBox none wireBuf).bind (fun r => r.1.load firstBox) =
      some { Bytes := GoBytes.slice [123, 125], Status := Status.Present } ∧
    (@DecodeTextM Unit wireMem firstBox none wireBuf).bind
        (fun r => (r.1.setByte wireBuf 0 91).bind (fun m => m.load firstBox)) =
      some { Bytes := GoBytes.slice [91, 125], Status := Status.Present } ∧
    wireMem.elemsOf wireBuf = GoBytes.slice [123, 125] := by
  decide

/-- C18, amended: `DecodeText` of a present buffer `src` makes no copy. It
returns no error, creates no array and changes none, and stores `src` itself
in the field `Bytes`: the raw of the box is the window of the caller's array,
so right after the call it has the content of `src`, and a later write of a
byte `x` at an index `i` of the caller's buffer is a write at index `i` of the
raw of the box. -/
theorem C18_decode_text_shares_buffer {E : Type} (m : Mem) (dst : JsonRef)
    (ci : Option ConnInfo) (arr off len cap : Nat)
    (hsrc : m.ValidHdr (SliceHdr.window arr off len cap))
    (hb : dst.bytesAt < m.slices.length) (hs : dst.statusAt < m.statuses.length) :
    ∃ m1 : Mem,
      @DecodeTextM E m dst ci (SliceHdr.window arr off len cap) = some (m1, none) ∧
      m1.arrays = m.arrays ∧
      m1.slices[dst.bytesAt]? = some (SliceHdr.window arr off len cap) ∧
      m1.load dst =
        some { Bytes := m.elemsOf (SliceHdr.window arr off len cap),
               Status := Status.Present } ∧
      ∀ (i : Nat) (x : Byte), i < len →
        ∃ m2 : Mem,
          m1.setByte (SliceHdr.window arr off len cap) i x = some m2 ∧
          m2.load dst =
            some { Bytes :=
                     GoBytes.slice ((m.elemsOf (SliceHdr.window arr off len cap)).elems.set i x),
                   Status := Status.Present } := by
  refine ⟨{ m with slices := m.slices.set dst.bytesAt (SliceHdr.window arr off len cap),
                   statuses := m.statuses.set dst.statusAt Status.Present },
    ?_, rfl, ?_, ?_, ?_⟩
  · simp [DecodeTextM, Mem.storeBox, hb, hs]
  · simp [hb]
  · simp [Mem.load, Mem.elemsOf, hb, hs]
  · intro i x hi
    refine ⟨{ arrays := m.arrays.set arr ((m.arrays.getD arr []).set (off + i) x),
              strings := m.strings, stringPtrs := m.stringPtrs,
              slices := m.slices.set dst.bytesAt (SliceHdr.window arr off len cap),
              statuses := m.statuses.set dst.statusAt Status.Present },
      by simp [Mem.setByte, hi], ?_⟩
    have harr : arr < m.arrays.length := hsrc.1
    simp only [Mem.load, Mem.elemsOf, GoBytes.elems]
    simp [hb, hs, harr, Mem.window_after_set]

/-- C18, amended, at the caller's buffer holding `{}` and a write of `[` at
index 0. -/
theorem C18_decode_text_shares_buffer_witness :
    wireMem.ValidHdr wireBuf ∧
    ∃ m1 : Mem,
      @DecodeTextM Unit wireMem firstBox none wireBuf = some (m1, none) ∧
      m1.arrays = wireMem.arrays ∧
      ∃ m2 : Mem, m1.setByte wireBuf 0 91 = some m2 ∧
        m2.load firstBox =
          some { Bytes := GoBytes.slice ([123, 125].set 0 91), Status := Status.Present } :=
  ⟨by decide,
    match @C18_decode_text_shares_buffer Unit wireMem firstBox none 0 0 2 2 (by decide)
      (by decide) (by decide) with
    | ⟨m1, h1, ha, _, _, hw⟩ => ⟨m1, h1, ha, hw 0 91 (by decide)⟩⟩

/-! ## Read operations and the box in memory -/

theorem Mem.elemsOf_congr (m m1 : Mem) (h : SliceHdr)
    (ha : ∀ arr off len cap, h = SliceHdr.window arr off len cap →
      m1.arrays.getD arr [] = m.arrays.getD arr []) :
    m1.elemsOf h = m.elemsOf h := by
  cases h with
  | nil => rfl
  | window arr off len cap =>
    simp only [Mem.elemsOf]
    rw [ha arr off len cap rfl]

theorem Mem.load_congr (m m1 : Mem) (p : JsonRef) (h : SliceHdr)
    (hh : m.slices[p.bytesAt]? = some h)
    (hsl : m1.slices[p.bytesAt]? = m.slices[p.bytesAt]?)
    (hst : m1.statuses[p.statusAt]? = m.statuses[p.statusAt]?)
    (he : m1.elemsOf h = m.elemsOf h) :
    m1.load p = m.load p := by
  simp only [Mem.load, hsl, hst, hh]
  cases m.statuses[p.statusAt]? <;> simp [he]

theorem Mem.elemsOf_alloc (m : Mem) (h : SliceHdr) (a : List Byte) (hv : m.ValidHdr h) :
    Mem.elemsOf { m with arrays := m.arrays ++ [a] } h = m.elemsOf h := by
  apply Mem.elemsOf_congr
  intro arr off len cap he
  subst he
  have harr : arr < m.arrays.length := hv.1
  simp [List.getElem?_append_left harr]

theorem Mem.elemsOf_set_other (m : Mem) (h : SliceHdr) (arr : Nat) (a : List Byte)
    (hne : ∀ arr1 off len cap, h = SliceHdr.window arr1 off len cap → arr ≠ arr1) :
    Mem.elemsOf { m with arrays := m.arrays.set arr a } h = m.elemsOf h := by
  apply Mem.elemsOf_congr
  intro arr1 off len cap he
  have hn := hne arr1 off len cap he
  simp [List.getElem?_set_ne hn]

theorem Mem.load_appendBytes (m : Mem) (p : JsonRef) (h buf : SliceHdr) (xs : List Byte)
    (hh : m.slices[p.bytesAt]? = some h) (hv : m.ValidHdr h) (hns : ¬ buf.SharesArray h) :
    (m.appendBytes buf xs).2.load p = m.load p := by
  cases buf with
  | nil =>
    by_cases hx : xs = []
    · simp [Mem.appendBytes, hx]
    · simp only [Mem.appendBytes, hx, if_false]
      exact Mem.load_congr m _ p h hh rfl rfl (Mem.elemsOf_alloc m h xs hv)
  | window arr off len cap =>
    by_cases hc : len + xs.length ≤ cap
    · simp only [Mem.appendBytes, hc, if_true]
      refine Mem.load_congr m _ p h hh rfl rfl (Mem.elemsOf_set_other m h arr _ ?_)
      intro arr1 off1 len1 cap1 he heq
      subst he
      exact hns heq
    · simp only [Mem.appendBytes, hc, if_false]
      exact Mem.load_congr m _ p h hh rfl rfl (Mem.elemsOf_alloc m h _ hv)

theorem AssignToM_pString_load {D E : Type} (unmarshal : GoBytes → D → Mem → Mem × Option E)
    (m : Mem) (p : JsonRef) (q : Ptr) (res : Mem × Option (Error E))
    (hr : AssignToM unmarshal m p (Dest.pString q) = some res) :
    res.1.load p = m.load p := by
  rw [AssignToM] at hr
  cases hsl : m.slices[p.bytesAt]? with
  | none => simp [hsl] at hr
  | some h =>
    cases hst : m.statuses[p.statusAt]? with
    | none => simp [hsl, hst] at hr
    | some s =>
      simp only [hsl, hst] at hr
      by_cases hs : s = Status.Present
      · cases q with
        | none => simp [hs, Mem.writeString] at hr
        | some a =>
          by_cases ha : a < m.strings.length
          · simp [hs, Mem.writeString, ha] at hr
            subst hr
            rfl
          · simp [hs, Mem.writeString, ha] at hr
      · simp [hs] at hr
        subst hr
        rfl

/-- C15, as stated, fails when an argument shares memory with the box.
`EncodeText` of the `Present` box holding `ab`, into an output buffer that is
a slice of the same array, returns no error and leaves the raw of the box
reading `aa`. `AssignTo` of the `Null` box that carries the byte `x`, into
the `*[]byte` that points to its own field `Bytes`, returns no error and
leaves the raw of the box nil. -/
theorem C15_aliased_argument_changes_box :
    overlapMem.load firstBox =
      some { Bytes := GoBytes.slice [97, 98], Status := Status.Present } ∧
    (@EncodeTextM Unit overlapMem firstBox none overlapBuf).map
        (fun r => (r.1.2, r.2.load firstBox)) =
      some (none, some { Bytes := GoBytes.slice [97, 97], Status := Status.Present }) ∧
    staleMem.load firstBox =
      some { Bytes := GoBytes.slice [120], Status := Status.Null } ∧
    (@AssignToM Unit Unit (fun _ _ m => (m, none)) staleMem firstBox
        (Dest.pBytes (some 0))).map (fun r => (r.2, r.1.load firstBox)) =
      some (none, some { Bytes := GoBytes.nil, Status := Status.Null }) := by
  refine ⟨by decide, by decide, by decide, ?_⟩
  rw [AssignToM]
  decide

/-- C15, amended: read operations leave a box unchanged when their argument
shares no memory with it. For every box in memory, with status and raw `b`:
`Get` and `Value` change no memory at all; `EncodeText` and `EncodeBinary`,
into every output buffer that does not share the byte array of the raw,
return and leave the box with status and raw `b`; `AssignTo`, to every
destination other than the `*[]byte` pointing to the field `Bytes` of the box,
and with a deserializer call that leaves the box as it is, leaves the box with
status and raw `b` whenever it returns, with or without an error. -/
theorem C15_read_operations_keep_box {V I D E : Type} (lib : Lib V I D E)
    (unmarshal : GoBytes → D → Mem → Mem × Option E) (m : Mem) (p : JsonRef) (b : Json)
    (h : SliceHdr) (hh : m.slices[p.bytesAt]? = some h) (hv : m.ValidHdr h)
    (hb : m.load p = some b) :
    GetM lib m p = some (Get lib b, m) ∧
    @ValueM V E m p = some (Value b, m) ∧
    (∀ ci buf, ¬ buf.SharesArray h →
      ∃ r m1, @EncodeTextM E m p ci buf = some (r, m1) ∧ m1.load p = some b) ∧
    (∀ ci buf, ¬ buf.SharesArray h →
      ∃ r m1, @EncodeBinaryM E m p ci buf = some (r, m1) ∧ m1.load p = some b) ∧
    (∀ dst res, dst ≠ Dest.pBytes (some p.bytesAt) →
      (∀ d data, dst = Dest.other d → (unmarshal data d m).1.load p = some b) →
      AssignToM unmarshal m p dst = some res → res.1.load p = some b) := by
  have henc : ∀ ci buf, ¬ buf.SharesArray h →
      ∃ r m1, @EncodeTextM E m p ci buf = some (r, m1) ∧ m1.load p = some b := by
    intro ci buf hns
    cases hst : m.statuses[p.statusAt]? with
    | none => simp [Mem.load, hh, hst] at hb
    | some s =>
      cases s with
      | Undefined =>
        exact ⟨(SliceHdr.nil, some Error.errUndefined), m,
          by simp [EncodeTextM, hh, hst], hb⟩
      | Null => exact ⟨(SliceHdr.nil, none), m, by simp [EncodeTextM, hh, hst], hb⟩
      | Present =>
        refine ⟨((m.appendBytes buf (m.elemsOf h).elems).1, none),
          (m.appendBytes buf (m.elemsOf h).elems).2, by simp [EncodeTextM, hh, hst], ?_⟩
        rw [Mem.load_appendBytes m p h buf _ hh hv hns]
        exact hb
  refine ⟨by simp [GetM, hb], by simp [ValueM, hb], henc, henc, ?_⟩
  intro dst res hne hun hr
  cases dst with
  | pString q =>
    rw [AssignToM_pString_load unmarshal m p q res hr]
    exact hb
  | ppString v =>
    rw [AssignToM] at hr
    cases v with
    | none => simp [Mem.newString, Mem.writeStringPtr] at hr
    | some a =>
      by_cases ha : a < m.stringPtrs.length
      · simp only [Mem.newString, Mem.writeStringPtr, ha, if_true, Mem.readStringPtr,
          List.length_set, List.getElem?_set_self ha] at hr
        rw [AssignToM_pString_load unmarshal _ p _ res hr]
        exact hb
      · simp [Mem.newString, Mem.writeStringPtr, ha] at hr
  | pBytes v =>
    rw [AssignToM] at hr
    cases hst : m.statuses[p.statusAt]? with
    | none => simp [Mem.load, hh, hst] at hb
    | some s =>
      simp only [hh, hst] at hr
      cases v with
      | none =>
        by_cases hs : s = Status.Present <;> simp [hs, Mem.writeSlice, Mem.makeCopy] at hr
      | some a =>
        have hap : a ≠ p.bytesAt := fun hc => hne (by rw [hc])
        by_cases ha : a < m.slices.length
        · by_cases hs : s = Status.Present
          · simp [hs, Mem.writeSlice, Mem.makeCopy, ha] at hr
            subst hr
            rw [← hb]
            refine Mem.load_congr m _ p h hh ?_ rfl ?_
            · simp [List.getElem?_set_ne hap]
            · exact Mem.elemsOf_alloc m h _ hv
          · simp [hs, Mem.writeSlice, ha] at hr
            subst hr
            rw [← hb]
            refine Mem.load_congr m _ p h hh ?_ rfl rfl
            simp [List.getElem?_set_ne hap]
        · by_cases hs : s = Status.Present <;>
            simp [hs, Mem.writeSlice, Mem.makeCopy, ha] at hr
  | other d =>
    rw [AssignToM] at hr
    cases hst : m.statuses[p.statusAt]? with
    | none => simp [Mem.load, hh, hst] at hb
    | some s =>
      simp only [hh, hst] at hr
      simp at hr
      subst hr
      exact hun d _ rfl

/-- C15, amended, at the `Present` box holding `ab` and the nil output
buffer, which shares no array with the box: `EncodeText` returns and the box
still holds `ab`. -/
theorem C15_read_operations_keep_box_witness :
    overlapMem.ValidHdr (SliceHdr.window 0 0 2 4) ∧
    ¬ SliceHdr.nil.SharesArray (SliceHdr.window 0 0 2 4) ∧
    ∃ r m1, @EncodeTextM Unit overlapMem firstBox none SliceHdr.nil = some (r, m1) ∧
      m1.load firstBox =
        some { Bytes := GoBytes.slice [97, 98], Status := Status.Present } :=
  ⟨by decide, by decide,
    (C15_read_operations_keep_box failingLib (fun _ _ m => (m, none)) overlapMem firstBox
      { Bytes := GoBytes.slice [97, 98], Status := Status.Present }
      (SliceHdr.window 0 0 2 4) (by decide) (by decide) (by decide)).2.2.1 none SliceHdr.nil
      (by decide)⟩

/-! ## The operations in memory and the operations by value -/

theorem writeAt_window (a xs : List Byte) (off len : Nat) (h : off + len ≤ a.length) :
    ((writeAt a (off + len) xs).drop off).take (len + xs.length) =
      ((a.drop off).take len) ++ xs := by
  have h1 : (List.take (off + len) a).length = off + len := by
    simp [List.length_take, h]
  have h2 : ((a.drop off).take len).length = len := by
    simp [List.length_take, List.length_drop]
    omega
  unfold writeAt
  rw [List.append_assoc, List.drop_append_of_le_length (by omega), List.drop_take,
    Nat.add_sub_cancel_left, ← List.append_assoc,
    List.take_append_of_le_length (by simp [h2])]
  apply List.take_of_length_le
  simp [h2]

/-- `EncodeText` in memory returns what `EncodeText` by value returns: the same
error, and a slice whose value is the returned bytes. -/
theorem EncodeTextM_value {E : Type} (m : Mem) (p : JsonRef) (b : Json)
    (ci : Option ConnInfo) (buf : SliceHdr) (hb : m.load p = some b)
    (hbuf : m.ValidHdr buf) :
    ∃ r m1, @EncodeTextM E m p ci buf = some (r, m1) ∧
      (m1.elemsOf r.1, r.2) = @EncodeText E b ci (m.elemsOf buf) := by
  cases hsl : m.slices[p.bytesAt]? with
  | none => simp [Mem.load, hsl] at hb
  | some h =>
    cases hst : m.statuses[p.statusAt]? with
    | none => simp [Mem.load, hsl, hst] at hb
    | some s =>
      simp only [Mem.load, hsl, hst, Option.some.injEq] at hb
      subst hb
      cases s with
      | Undefined =>
        exact ⟨(SliceHdr.nil, some Error.errUndefined), m,
          by simp [EncodeTextM, hsl, hst], by simp [EncodeText, Mem.elemsOf]⟩
      | Null =>
        exact ⟨(SliceHdr.nil, none), m,
          by simp [EncodeTextM, hsl, hst], by simp [EncodeText, Mem.elemsOf]⟩
      | Present =>
        refine ⟨((m.appendBytes buf (m.elemsOf h).elems).1, none),
          (m.appendBytes buf (m.elemsOf h).elems).2, by simp [EncodeTextM, hsl, hst], ?_⟩
        simp only [EncodeText, Prod.mk.injEq, and_true]
        generalize (m.elemsOf h) = raw
        cases buf with
        | nil =>
          cases hx : raw.elems with
          | nil => simp [Mem.appendBytes, Mem.elemsOf, GoBytes.append, hx]
          | cons x xs => simp [Mem.appendBytes, Mem.elemsOf, GoBytes.append, hx]
        | window arr off len cap =>
          obtain ⟨harr, hlc, hcap⟩ := hbuf
          have hlen : off + len ≤ (m.arrays.getD arr []).length := by omega
          have hwin : (((m.arrays.getD arr []).drop off).take len).length = len := by
            simp only [List.length_take, List.length_drop]
            omega
          have happ : ∀ bs, GoBytes.append (GoBytes.slice bs) raw =
              GoBytes.slice (bs ++ raw.elems) := by
            intro bs
            cases hx : raw.elems <;> simp [GoBytes.append, hx]
          rw [show m.elemsOf (SliceHdr.window arr off len cap) =
            GoBytes.slice (((m.arrays.getD arr []).drop off).take len) from rfl, happ]
          generalize raw.elems = xs
          by_cases hc : len + xs.length ≤ cap
          · have hw := writeAt_window (m.arrays.getD arr []) xs off len hlen
            simp only [Mem.appendBytes, hc, if_true, Mem.elemsOf]
            rw [List.getD_eq_getElem?_getD, List.getElem?_set_self harr]
            simpa using hw
          · simp only [Mem.appendBytes, hc, if_false, Mem.elemsOf, GoBytes.elems]
            rw [List.getD_eq_getElem?_getD, List.getElem?_concat_length]
            simp only [Option.getD_some, List.drop_zero, GoBytes.slice.injEq]
            apply List.take_of_length_le
            rw [List.length_append, hwin]

/-- `DecodeText` in memory leaves the box that `DecodeText` by value returns
for the value of `src`. -/
theorem DecodeTextM_value {E : Type} (m : Mem) (dst : JsonRef) (d : Json)
    (ci : Option ConnInfo) (src : SliceHdr)
    (hb : dst.bytesAt < m.slices.length) (hs : dst.statusAt < m.statuses.length) :
    ∃ m1, @DecodeTextM E m dst ci src = some (m1, none) ∧
      m1.load dst = some (@DecodeText E d ci (m.elemsOf src)).1 := by
  cases src with
  | nil =>
    exact ⟨_, by simp [DecodeTextM, Mem.storeBox, hb, hs]; rfl,
      by simp [Mem.load, Mem.elemsOf, DecodeText, hb, hs]⟩
  | window arr off len cap =>
    exact ⟨_, by simp [DecodeTextM, Mem.storeBox, hb, hs]; rfl,
      by simp [Mem.load, Mem.elemsOf, DecodeText, hb, hs]⟩

theorem Mem.elemsOf_of_arrays_eq (m m1 : Mem) (h : SliceHdr) (ha : m1.arrays = m.arrays) :
    m1.elemsOf h = m.elemsOf h := by
  cases h with
  | nil => rfl
  | window arr off len cap => simp [Mem.elemsOf, ha]

theorem Mem.load_parts (m : Mem) (p : JsonRef) (b : Json) (hb : m.load p = some b) :
    ∃ h, m.slices[p.bytesAt]? = some h ∧ m.statuses[p.statusAt]? = some b.Status ∧
      b.Bytes = m.elemsOf h := by
  cases hsl : m.slices[p.bytesAt]? with
  | none => simp [Mem.load, hsl] at hb
  | some h =>
    cases hst : m.statuses[p.statusAt]? with
    | none => simp [Mem.load, hsl, hst] at hb
    | some s =>
      simp only [Mem.load, hsl, hst, Option.some.injEq] at hb
      subst hb
      exact ⟨h, rfl, rfl, rfl⟩

theorem AssignToM_pString_value {V I D E : Type} (lib : Lib V I D E)
    (unmarshal : GoBytes → D → Mem → Mem × Option E) (m : Mem) (p : JsonRef) (b : Json)
    (q : Ptr) (hb : m.load p = some b) :
    (AssignToM unmarshal m p (Dest.pString q)).map (fun r => (r.1.toStore, r.2)) =
      (AssignTo lib b (Dest.pString q) m.toStore).map (fun r => (r.store, r.err)) := by
  obtain ⟨h, hsl, hst, hbytes⟩ := Mem.load_parts m p b hb
  rw [AssignToM, AssignTo]
  simp only [hsl, hst, hbytes]
  by_cases hs : b.Status = Status.Present
  · cases q with
    | none => simp [hs, Mem.writeString, Store.writeString]
    | some a =>
      by_cases ha : a < m.strings.length
      · simp [hs, Mem.writeString, Store.writeString, Mem.toStore, ha]
        intro h1 _
        exact Mem.elemsOf_of_arrays_eq _ _ h1 rfl
      · simp [hs, Mem.writeString, Store.writeString, Mem.toStore, ha]
  · simp [hs]

/-- `AssignTo` in memory, to a `*string`, a `**string` or a `*[]byte`, does to
the variables what `AssignTo` by value does, and returns the same error. -/
theorem AssignToM_value {V I D E : Type} (lib : Lib V I D E)
    (unmarshal : GoBytes → D → Mem → Mem × Option E) (m : Mem) (p : JsonRef) (b : Json)
    (dst : Dest D) (hd : ∀ d, dst ≠ Dest.other d) (hb : m.load p = some b)
    (hv : ∀ h ∈ m.slices, m.ValidHdr h) :
    (AssignToM unmarshal m p dst).map (fun r => (r.1.toStore, r.2)) =
      (AssignTo lib b dst m.toStore).map (fun r => (r.store, r.err)) := by
  cases dst with
  | pString q => exact AssignToM_pString_value lib unmarshal m p b q hb
  | ppString v =>
    rw [AssignToM, AssignTo]
    cases v with
    | none => simp [Mem.newString, Mem.writeStringPtr, Store.newString, Store.writeStringPtr]
    | some a =>
      by_cases ha : a < m.stringPtrs.length
      · have ha2 : a < m.toStore.stringPtrs.length := ha
        simp only [Mem.newString, Mem.writeStringPtr, ha, if_true, Mem.readStringPtr,
          Store.newString, Store.writeStringPtr, ha2, Store.readStringPtr,
          List.getElem?_set_self ha, List.getElem?_set_self ha2]
        exact AssignToM_pString_value lib unmarshal _ p b _ hb
      · have ha2 : ¬ a < m.toStore.stringPtrs.length := ha
        simp [Mem.newString, Mem.writeStringPtr, Store.newString, Store.writeStringPtr, ha,
          ha2]
  | pBytes v =>
    obtain ⟨h, hsl, hst, hbytes⟩ := Mem.load_parts m p b hb
    rw [AssignToM, AssignTo]
    simp only [hsl, hst]
    cases v with
    | none =>
      by_cases hs : b.Status = Status.Present <;>
        simp [hs, Mem.writeSlice, Store.writeBytes, Mem.makeCopy]
    | some a =>
      by_cases ha : a < m.slices.length
      · have ha2 : a < m.toStore.byteSlices.length := by simpa [Mem.toStore] using ha
        by_cases hs : b.Status = Status.Present
        · simp only [hs, ne_eq, not_true_eq_false, if_false, Mem.makeCopy, Mem.writeSlice,
            ha, if_true, Store.writeBytes, ha2, Option.map_some', Option.some.injEq,
            Prod.mk.injEq, and_true]
          simp only [Mem.toStore, List.map_set, Store.mk.injEq, true_and]
          congr 1
          · apply List.map_congr_left
            intro h1 hmem
            exact Mem.elemsOf_alloc m h1 _ (hv h1 hmem)
          · simp [Mem.elemsOf, GoBytes.makeCopy, GoBytes.len, hbytes]
        · simp [hs, Mem.writeSlice, Store.writeBytes, ha, ha2]
          simp [Mem.toStore, List.map_set]
          rfl
      · have ha2 : ¬ a < m.toStore.byteSlices.length := by simpa [Mem.toStore] using ha
        by_cases hs : b.Status = Status.Present <;>
          simp [hs, Mem.writeSlice, Store.writeBytes, Mem.makeCopy, ha, ha2]
  | other d => exact absurd rfl (hd d)

end Pgtype
